import Mathlib

/-!
Shallow embedding of the deai-governance-simulation core (src/agents.py and
src/simulation.py), together with theorems settling the frozen claims about
its natural-language specification.

Modelling conventions:
* Python floats are idealised as exact rationals (`ℚ`) for agent state,
  proposal qualities, random draws and slashing arithmetic, and as reals
  (`ℝ`) for voting powers (the quadratic voting method applies `math.sqrt`,
  embedded as `Real.sqrt`).
* Calls to `random.random()` are externalised: each stochastic function takes
  the draw `r` (a rational in `[0,1)`) as an explicit argument; per-agent
  draws inside `conduct_vote` are supplied by functions indexed by agent id.
* Python `dict`s keyed by agent id (`votes_cast`, `voting_powers`) are
  embedded as association lists in insertion order; theorems that depend on
  the keyed access carry the distinct-ids hypothesis under which the two
  representations agree (agent ids are unique by construction in the code).
* `raise ValueError` in the method dispatches is embedded as `Option`:
  `none` is the error outcome.  Note that in `ℚ`, `x / 0 = 0`; the division
  by `original_stake` is only used under a `0 < original_stake` hypothesis.
-/

/-- The `AgentType` enum of src/agents.py. -/
inductive AgentType where
  | honest
  | collusion
  | whale
  | sybil
  | emotional_bias
  | systematic_bias
deriving DecidableEq, Repr

/-- The `Agent` dataclass of src/agents.py.  `__post_init__` sets
`original_stake := stake` and `amount_slashed := 0`; the fields are kept
general here and theorems state the construction invariants they need.
`honesty_threshold` is only meaningful for honest agents. -/
structure Agent where
  agent_id : ℕ
  agent_type : AgentType
  stake : ℚ
  original_stake : ℚ
  amount_slashed : ℚ
  honesty_threshold : ℚ
deriving DecidableEq, Repr

/-- `Agent.get_effective_stake`: current stake after slashing. -/
def Agent.get_effective_stake (a : Agent) : ℚ :=
  max 0 (a.stake - a.amount_slashed)

/-- `Agent.apply_slashing`: add `slash_amount` to `amount_slashed`, then clamp
it at `stake`. -/
def Agent.apply_slashing (a : Agent) (slash_amount : ℚ) : Agent :=
  let s := a.amount_slashed + slash_amount
  { a with amount_slashed := if s > a.stake then a.stake else s }

/-- `Agent._honest_vote` with the random draw `r` made explicit:
the call `random.random() < probability` becomes `r < probability`. -/
def Agent.honest_vote (a : Agent) (quality r : ℚ) : Bool :=
  let x := a.honesty_threshold
  if quality > x then
    true
  else if 0.4 < quality ∧ quality < x then
    decide (r < quality / x)
  else if quality < 0.4 then
    decide (r < max 0 ((quality - 0.2) / (x + 0.5)))
  else if quality = 0.4 then
    decide (r < max 0 ((quality - 0.2) / (x + 0.5)))
  else
    true

/-- `Agent._collusion_vote` with the random draw `r` made explicit. -/
def Agent.collusion_vote (quality r : ℚ) : Bool :=
  let correct_vote := decide (quality ≥ 0.5)
  if 0.4 < quality ∧ quality < 0.6 then
    !correct_vote
  else if (0.35 < quality ∧ quality ≤ 0.4) ∨ (0.6 ≤ quality ∧ quality < 0.65) then
    if r < 0.5 then !correct_vote else correct_vote
  else
    correct_vote

/-- `Agent._whale_vote`: same policy as collusion. -/
def Agent.whale_vote (quality r : ℚ) : Bool :=
  Agent.collusion_vote quality r

/-- `Agent._sybil_vote` (deterministic). -/
def Agent.sybil_vote (quality : ℚ) : Bool :=
  let correct_vote := decide (quality ≥ 0.5)
  if 0.4 < quality ∧ quality < 0.6 then !correct_vote else correct_vote

/-- `Agent._emotional_bias_vote` with the random draw `r` made explicit. -/
def Agent.emotional_bias_vote (quality r : ℚ) : Bool :=
  let correct_vote := decide (quality ≥ 0.5)
  if r < 0.5 then !correct_vote else correct_vote

/-- `Agent._systematic_bias_vote` (deterministic). -/
def Agent.systematic_bias_vote (quality : ℚ) : Bool :=
  !(decide (quality ≥ 0.5))

/-- `Agent.vote_on_proposal`: dispatch on the agent type.  The Python
`else: raise ValueError` branch is unreachable here because `AgentType` is a
closed inductive type. -/
def Agent.vote_on_proposal (a : Agent) (proposal_quality r : ℚ) : Bool :=
  match a.agent_type with
  | AgentType.honest => a.honest_vote proposal_quality r
  | AgentType.collusion => Agent.collusion_vote proposal_quality r
  | AgentType.whale => Agent.whale_vote proposal_quality r
  | AgentType.sybil => Agent.sybil_vote proposal_quality
  | AgentType.emotional_bias => Agent.emotional_bias_vote proposal_quality r
  | AgentType.systematic_bias => Agent.systematic_bias_vote proposal_quality

/-- The `Proposal` dataclass of src/simulation.py. -/
structure Proposal where
  proposal_id : ℕ
  quality : ℚ
deriving DecidableEq, Repr

/-- `Proposal.is_objectively_good`: quality at least 0.5. -/
def Proposal.is_objectively_good (p : Proposal) : Bool :=
  decide (p.quality ≥ 0.5)

/-- The `GovernanceMechanism` dataclass of src/generator.py (the seven
mechanism parameters).  The three method fields are free-form strings, as in
the source, so unrecognized methods are expressible. -/
structure GovernanceMechanism where
  voting_method : String
  stake_method : String
  slashing_method : String
  consensus_threshold : ℚ
  slashing_rate : ℚ
  sybil_resistance : ℚ
  max_voting_power : ℚ
deriving DecidableEq, Repr

/-- The `VoteResult` dataclass of src/simulation.py. -/
structure VoteResult where
  proposal : Proposal
  passed : Bool
  total_voting_power : ℝ
  yes_voting_power : ℝ
  no_voting_power : ℝ
  votes_cast : List (ℕ × Bool)
  agents_slashed : List ℕ
  correct_outcome : Bool

/-- First phase of `VotingSystem.calculate_voting_power`: the base power from
the stake method.  The `raise ValueError` on an unknown stake method is
embedded as `none`. -/
noncomputable def VotingSystem.base_power (m : GovernanceMechanism) (agent : Agent) : Option ℝ :=
  if m.stake_method = "equal_weight" then
    some 1
  else if m.stake_method = "token_based" then
    some (agent.get_effective_stake : ℝ)
  else if m.stake_method = "reputation_based" then
    some (agent.get_effective_stake : ℝ)
  else if m.stake_method = "hybrid" then
    some (((agent.get_effective_stake : ℝ) + 1) / 2)
  else
    none

/-- `VotingSystem.calculate_voting_power`: base power then the voting-method
transform.  `math.sqrt` is embedded as `Real.sqrt`; the `raise ValueError`
branches are embedded as `none`. -/
noncomputable def VotingSystem.calculate_voting_power (m : GovernanceMechanism) (agent : Agent) :
    Option ℝ :=
  match VotingSystem.base_power m agent with
  | none => none
  | some bp =>
    if m.voting_method = "simple_majority" then
      some 1
    else if m.voting_method = "weighted" then
      some bp
    else if m.voting_method = "quadratic" then
      some (Real.sqrt bp)
    else
      none

/-- `VotingSystem.apply_sybil_resistance` with the random draw `r` explicit:
a sybil agent's power is zeroed when `r < sybil_resistance`. -/
def VotingSystem.apply_sybil_resistance (m : GovernanceMechanism) (agent : Agent)
    (r : ℚ) (voting_power : ℝ) : ℝ :=
  if agent.agent_type = AgentType.sybil ∧ r < m.sybil_resistance then 0 else voting_power

/-- `VotingSystem.apply_max_voting_power_cap`.  The `voting_powers` dict is an
association list in insertion order; `agents` is an unused parameter in the
source as well. -/
noncomputable def VotingSystem.apply_max_voting_power_cap (m : GovernanceMechanism)
    (agents : List Agent) (voting_powers : List (ℕ × ℝ)) : List (ℕ × ℝ) :=
  let total_power : ℝ := (voting_powers.map Prod.snd).sum
  if total_power = 0 then
    voting_powers
  else
    let max_allowed_power := total_power * (m.max_voting_power : ℝ)
    voting_powers.map (fun ip =>
      if ip.2 > max_allowed_power then (ip.1, max_allowed_power) else ip)

/-- `VotingSystem.calculate_slash_amount`.  Note the final `else` branch of
the source returns `base_slash` (it does not raise), so this function is
total. -/
def VotingSystem.calculate_slash_amount (m : GovernanceMechanism) (agent : Agent) : ℚ :=
  let base_slash := agent.get_effective_stake * m.slashing_rate
  if m.slashing_method = "linear" then
    base_slash
  else if m.slashing_method = "exponential" then
    base_slash * (1 + agent.amount_slashed / agent.original_stake)
  else if m.slashing_method = "progressive" then
    let times_slashed :=
      if m.slashing_rate > 0 then
        agent.amount_slashed / (m.slashing_rate * agent.original_stake)
      else 0
    base_slash * (1 + times_slashed * 0.5)
  else
    base_slash

/-- One mutation step of the `apply_slashing` loop: the agent with the given
id is slashed by `calculate_slash_amount` evaluated at its current state
(Python mutates the shared `Agent` object found in `agents_by_id`). -/
def VotingSystem.slash_update (m : GovernanceMechanism) (agent_id : ℕ)
    (agents : List Agent) : List Agent :=
  agents.map (fun a =>
    if a.agent_id = agent_id then a.apply_slashing (VotingSystem.calculate_slash_amount m a)
    else a)

/-- The condition under which the `apply_slashing` loop penalizes a vote:
(the proposal passed ∧ it is not objectively good ∧ the agent voted YES) ∨
(it failed ∧ it is objectively good ∧ the agent voted NO). -/
def slashCondition (good passed vote : Bool) : Bool :=
  (passed && !good && vote) || (!passed && good && !vote)

/-- The loop of `VotingSystem.apply_slashing` over `votes_cast`: an agent is
slashed when its vote satisfies `slashCondition`, and its id is appended to
the accumulator. -/
def VotingSystem.slash_loop (m : GovernanceMechanism) (good passed : Bool) :
    List (ℕ × Bool) → List Agent → List ℕ → List Agent × List ℕ
  | [], agents, acc => (agents, acc)
  | iv :: rest, agents, acc =>
    if slashCondition good passed iv.2 then
      VotingSystem.slash_loop m good passed rest
        (VotingSystem.slash_update m iv.1 agents) (acc ++ [iv.1])
    else
      VotingSystem.slash_loop m good passed rest agents acc

/-- `VotingSystem.apply_slashing`: early return when the slashing method is
`none` or the rate is 0; otherwise the loop above.  Returns the updated
agents (Python mutates them in place) together with `agents_slashed`. -/
def VotingSystem.apply_slashing (m : GovernanceMechanism) (agents : List Agent)
    (votes_cast : List (ℕ × Bool)) (proposal : Proposal) (proposal_passed : Bool) :
    List Agent × List ℕ :=
  if m.slashing_method = "none" ∨ m.slashing_rate = 0 then
    (agents, [])
  else
    VotingSystem.slash_loop m proposal.is_objectively_good proposal_passed
      votes_cast agents []

/-- Step 1 of `conduct_vote` (power side): each agent's voting power with
sybil resistance applied, keyed by agent id; `none` as soon as
`calculate_voting_power` raises. -/
noncomputable def VotingSystem.collect_powers (m : GovernanceMechanism) (rs : ℕ → ℚ) :
    List Agent → Option (List (ℕ × ℝ))
  | [] => some []
  | a :: rest =>
    match VotingSystem.calculate_voting_power m a, VotingSystem.collect_powers m rs rest with
    | some pw, some tail =>
      some ((a.agent_id, VotingSystem.apply_sybil_resistance m a (rs a.agent_id) pw) :: tail)
    | _, _ => none

/-- Step 3 of `conduct_vote`: tally `(total, yes, no)` over `votes_cast`,
looking each agent's capped power up by id (every id of `votes_cast` has an
entry in `voting_powers` at the call site; the `getD 0` default is never
exercised there). -/
def VotingSystem.tally (voting_powers : List (ℕ × ℝ)) :
    List (ℕ × Bool) → ℝ × ℝ × ℝ → ℝ × ℝ × ℝ
  | [], acc => acc
  | iv :: rest, acc =>
    let power := (voting_powers.lookup iv.1).getD 0
    VotingSystem.tally voting_powers rest
      (acc.1 + power,
       (if iv.2 then acc.2.1 + power else acc.2.1),
       (if iv.2 then acc.2.2 else acc.2.2 + power))

/-- `VotingSystem.conduct_vote`: votes and powers, cap, tally, threshold
decision, outcome correctness, and slashing on an incorrect outcome.  The
random draws for votes and sybil resistance are supplied by `rv` and `rs`
(indexed by agent id).  Returns the `VoteResult` together with the updated
agent list (Python mutates the agents in place); `none` embeds the
`ValueError` of an unrecognized stake or voting method. -/
noncomputable def VotingSystem.conduct_vote (m : GovernanceMechanism) (agents : List Agent)
    (proposal : Proposal) (rv rs : ℕ → ℚ) : Option (VoteResult × List Agent) :=
  let votes_cast := agents.map (fun a =>
    (a.agent_id, a.vote_on_proposal proposal.quality (rv a.agent_id)))
  match VotingSystem.collect_powers m rs agents with
  | none => none
  | some raw_powers =>
    let voting_powers := VotingSystem.apply_max_voting_power_cap m agents raw_powers
    let t := VotingSystem.tally voting_powers votes_cast (0, 0, 0)
    let total_power := t.1
    let yes_power := t.2.1
    let no_power := t.2.2
    let passed : Bool :=
      if total_power = 0 then false
      else decide ((m.consensus_threshold : ℝ) ≤ yes_power / total_power)
    let should_pass := proposal.is_objectively_good
    let correct_outcome := passed == should_pass
    let slash_result :=
      if correct_outcome then (agents, ([] : List ℕ))
      else VotingSystem.apply_slashing m agents votes_cast proposal passed
    some (⟨proposal, passed, total_power, yes_power, no_power, votes_cast,
           slash_result.2, correct_outcome⟩, slash_result.1)

/-! ### C1: honest-agent voting probabilities -/

/-- Concrete honest agent with the boundary threshold 0.4. -/
def honestAgentLow : Agent :=
  { agent_id := 1, agent_type := AgentType.honest, stake := 10,
    original_stake := 10, amount_slashed := 0, honesty_threshold := 0.4 }

/-- Concrete honest agent with threshold 0.5. -/
def honestAgentMid : Agent :=
  { agent_id := 2, agent_type := AgentType.honest, stake := 10,
    original_stake := 10, amount_slashed := 0, honesty_threshold := 0.5 }

/-- C1 (counterexample): the claim asserts YES with probability 1 whenever
`quality ≥ x` (boundary inclusive), for every threshold `0.4 ≤ x ≤ 0.8` and
quality in `[0,1]`.  At `x = 0.4`, `quality = 0.4` (so `quality ≥ x`) and
draw `r = 1/2 ∈ [0,1)` the code reaches the `quality == 0.4` branch and
votes NO, since `1/2 ≥ (0.4 − 0.2)/(0.4 + 0.5) = 2/9`. -/
theorem C1_counterexample :
    (0.4 : ℚ) ≤ honestAgentLow.honesty_threshold ∧
    honestAgentLow.honesty_threshold ≤ 0.8 ∧
    (0 : ℚ) ≤ 0.4 ∧ (0.4 : ℚ) ≤ 1 ∧
    honestAgentLow.honesty_threshold ≤ 0.4 ∧
    (0 : ℚ) ≤ 1 / 2 ∧ (1 / 2 : ℚ) < 1 ∧
    honestAgentLow.honest_vote 0.4 (1 / 2) = false := by
  norm_num [honestAgentLow, Agent.honest_vote]

/-- C1 (amended): for an honest agent with threshold `x ∈ [0.4, 0.8]`,
quality `q ∈ [0,1]` and draw `r ∈ [0,1)`: the vote is YES with probability 1
when `q ≥ x` — except at `q = 0.4`; YES iff `r < q/x` when `0.4 < q < x`;
and YES iff `r < max 0 ((q − 0.2)/(x + 0.5))` when `q < 0.4` or `q = 0.4`
(in particular also when `x = q = 0.4`). -/
theorem C1_honest_vote (a : Agent) (q r : ℚ)
    (hx1 : 0.4 ≤ a.honesty_threshold) (hx2 : a.honesty_threshold ≤ 0.8)
    (hq1 : 0 ≤ q) (hq2 : q ≤ 1) (hr1 : 0 ≤ r) (hr2 : r < 1) :
    (a.honesty_threshold ≤ q → q ≠ 0.4 → a.honest_vote q r = true) ∧
    (0.4 < q → q < a.honesty_threshold →
      (a.honest_vote q r = true ↔ r < q / a.honesty_threshold)) ∧
    (q ≤ 0.4 →
      (a.honest_vote q r = true ↔
        r < max 0 ((q - 0.2) / (a.honesty_threshold + 0.5)))) := by
  refine ⟨?_, ?_, ?_⟩
  · intro hxq hne
    simp only [Agent.honest_vote]
    split_ifs with h1 h2 h3
    · rfl
    · exact absurd h2.2 (not_lt.2 hxq)
    · exact absurd h3 (not_lt.2 (le_trans hx1 hxq))
    · rfl
  · intro h04 hqx
    simp only [Agent.honest_vote]
    split_ifs with h1 h2
    · exact absurd h1 (not_lt.2 (le_of_lt hqx))
    · simp
    all_goals exact absurd ⟨h04, hqx⟩ h2
  · intro hq04
    simp only [Agent.honest_vote]
    split_ifs with h1 h2 h3 h4
    · exact absurd h1 (not_lt.2 (le_trans hq04 hx1))
    · exact absurd h2.1 (not_lt.2 hq04)
    · simp
    · simp
    · exact absurd (le_antisymm hq04 (not_lt.1 h3)) h4

/-- C1 (witness): the amended honest-vote theorem applied at the honest agent
with threshold 0.5, quality 0.7 and draw 0. -/
theorem C1_witness :
    (honestAgentMid.honesty_threshold ≤ (0.7 : ℚ) → (0.7 : ℚ) ≠ 0.4 →
      honestAgentMid.honest_vote 0.7 0 = true) ∧
    ((0.4 : ℚ) < 0.7 → (0.7 : ℚ) < honestAgentMid.honesty_threshold →
      (honestAgentMid.honest_vote 0.7 0 = true ↔
        (0 : ℚ) < 0.7 / honestAgentMid.honesty_threshold)) ∧
    ((0.7 : ℚ) ≤ 0.4 →
      (honestAgentMid.honest_vote 0.7 0 = true ↔
        (0 : ℚ) < max 0 ((0.7 - 0.2) / (honestAgentMid.honesty_threshold + 0.5)))) :=
  C1_honest_vote honestAgentMid 0.7 0 (by norm_num [honestAgentMid])
    (by norm_num [honestAgentMid]) (by norm_num) (by norm_num) (by norm_num) (by norm_num)

/-! ### Frame and bound lemmas for `Agent.apply_slashing` -/

/-- `apply_slashing` leaves `agent_id` unchanged. -/
theorem Agent.apply_slashing_agent_id (a : Agent) (x : ℚ) :
    (a.apply_slashing x).agent_id = a.agent_id := rfl

/-- `apply_slashing` leaves `agent_type` unchanged. -/
theorem Agent.apply_slashing_agent_type (a : Agent) (x : ℚ) :
    (a.apply_slashing x).agent_type = a.agent_type := rfl

/-- `apply_slashing` leaves `stake` unchanged. -/
theorem Agent.apply_slashing_stake (a : Agent) (x : ℚ) :
    (a.apply_slashing x).stake = a.stake := rfl

/-- `apply_slashing` leaves `original_stake` unchanged. -/
theorem Agent.apply_slashing_original_stake (a : Agent) (x : ℚ) :
    (a.apply_slashing x).original_stake = a.original_stake := rfl

/-- `apply_slashing` leaves `honesty_threshold` unchanged. -/
theorem Agent.apply_slashing_honesty_threshold (a : Agent) (x : ℚ) :
    (a.apply_slashing x).honesty_threshold = a.honesty_threshold := rfl

/-- Explicit form of the updated `amount_slashed`. -/
theorem Agent.apply_slashing_amount (a : Agent) (x : ℚ) :
    (a.apply_slashing x).amount_slashed =
      if a.stake < a.amount_slashed + x then a.stake else a.amount_slashed + x := rfl

/-- One slashing step with a non-negative amount keeps `amount_slashed` in
`[previous value, stake]` (given the construction invariant). -/
theorem Agent.apply_slashing_inv (a : Agent) (x : ℚ) (hx : 0 ≤ x)
    (h0 : 0 ≤ a.amount_slashed) (h1 : a.amount_slashed ≤ a.stake) :
    0 ≤ (a.apply_slashing x).amount_slashed ∧
    (a.apply_slashing x).amount_slashed ≤ a.stake ∧
    a.amount_slashed ≤ (a.apply_slashing x).amount_slashed := by
  rw [Agent.apply_slashing_amount]
  split_ifs with h
  · exact ⟨by linarith, le_refl _, h1⟩
  · exact ⟨by linarith, by linarith, by linarith⟩

/-! ### C7: repeated slashing -/

/-- A finite sequence of `Agent.apply_slashing` calls, in order. -/
def Agent.slash_many (a : Agent) (amounts : List ℚ) : Agent :=
  amounts.foldl Agent.apply_slashing a

/-- `slash_many` leaves `stake` unchanged. -/
theorem Agent.slash_many_stake (amounts : List ℚ) (a : Agent) :
    (a.slash_many amounts).stake = a.stake := by
  induction amounts generalizing a with
  | nil => rfl
  | cons x l ih =>
    simpa [Agent.slash_many, List.foldl_cons, Agent.apply_slashing_stake] using
      ih (a.apply_slashing x)

/-- `slash_many` with non-negative amounts keeps `amount_slashed` in
`[previous value, stake]`. -/
theorem Agent.slash_many_inv (amounts : List ℚ) (a : Agent)
    (hl : ∀ x ∈ amounts, 0 ≤ x)
    (h0 : 0 ≤ a.amount_slashed) (h1 : a.amount_slashed ≤ a.stake) :
    0 ≤ (a.slash_many amounts).amount_slashed ∧
    (a.slash_many amounts).amount_slashed ≤ a.stake ∧
    a.amount_slashed ≤ (a.slash_many amounts).amount_slashed := by
  induction amounts generalizing a with
  | nil => exact ⟨h0, h1, le_refl _⟩
  | cons x l ih =>
    have hx : 0 ≤ x := hl x (List.mem_cons_self x l)
    obtain ⟨s0, s1, s2⟩ := a.apply_slashing_inv x hx h0 h1
    have hstake : (a.apply_slashing x).stake = a.stake := rfl
    obtain ⟨t0, t1, t2⟩ :=
      ih (a.apply_slashing x) (fun y hy => hl y (List.mem_cons_of_mem x hy)) s0
        (hstake ▸ s1)
    refine ⟨?_, ?_, ?_⟩
    · simpa [Agent.slash_many, List.foldl_cons] using t0
    · simpa [Agent.slash_many, List.foldl_cons, hstake] using hstake ▸ t1
    · have := le_trans s2 t2
      simpa [Agent.slash_many, List.foldl_cons] using this

/-- C7: across any finite sequence of `apply_slashing` calls with
non-negative amounts, `amount_slashed` is monotonically non-decreasing
(every prefix value is below the final value) and never exceeds `stake`,
so the effective stake stays in `[0, stake]`. -/
theorem C7_slashing_sequence (a : Agent) (amounts : List ℚ)
    (hl : ∀ x ∈ amounts, 0 ≤ x)
    (h0 : 0 ≤ a.amount_slashed) (h1 : a.amount_slashed ≤ a.stake) :
    (∀ pre suf, amounts = pre ++ suf →
      (a.slash_many pre).amount_slashed ≤ (a.slash_many amounts).amount_slashed) ∧
    (a.slash_many amounts).amount_slashed ≤ a.stake ∧
    0 ≤ (a.slash_many amounts).get_effective_stake ∧
    (a.slash_many amounts).get_effective_stake ≤ a.stake := by
  obtain ⟨f0, f1, f2⟩ := Agent.slash_many_inv amounts a hl h0 h1
  refine ⟨?_, f1, ?_, ?_⟩
  · intro pre suf hsplit
    subst hsplit
    have hpre : ∀ x ∈ pre, 0 ≤ x := fun x hx =>
      hl x (List.mem_append_left suf hx)
    obtain ⟨p0, p1, _⟩ := Agent.slash_many_inv pre a hpre h0 h1
    have hps : (a.slash_many pre).stake = a.stake := Agent.slash_many_stake pre a
    obtain ⟨_, _, q2⟩ :=
      Agent.slash_many_inv suf (a.slash_many pre)
        (fun y hy => hl y (List.mem_append_right pre hy)) p0 (hps ▸ p1)
    have happ : a.slash_many (pre ++ suf) = (a.slash_many pre).slash_many suf := by
      simp [Agent.slash_many, List.foldl_append]
    rw [happ]
    exact q2
  · exact le_max_left _ _
  · have hstake : (a.slash_many amounts).stake = a.stake :=
      Agent.slash_many_stake amounts a
    rw [Agent.get_effective_stake, hstake]
    have hnn : (0 : ℚ) ≤ a.stake := le_trans h0 h1
    rw [max_le_iff]
    constructor
    · exact hnn
    · linarith

/-- C7 (witness): the sequence theorem applied to a fresh agent of stake 10
slashed by 2 and then 3. -/
theorem C7_witness :
    (∀ pre suf, [(2 : ℚ), 3] = pre ++ suf →
      (honestAgentMid.slash_many pre).amount_slashed ≤
        (honestAgentMid.slash_many [(2 : ℚ), 3]).amount_slashed) ∧
    (honestAgentMid.slash_many [(2 : ℚ), 3]).amount_slashed ≤ honestAgentMid.stake ∧
    0 ≤ (honestAgentMid.slash_many [(2 : ℚ), 3]).get_effective_stake ∧
    (honestAgentMid.slash_many [(2 : ℚ), 3]).get_effective_stake ≤ honestAgentMid.stake :=
  C7_slashing_sequence honestAgentMid [(2 : ℚ), 3]
    (by intro x hx; simp at hx; rcases hx with h | h <;> norm_num [h])
    (by norm_num [honestAgentMid]) (by norm_num [honestAgentMid])

/-! ### C8: exponential slashing multiplier -/

/-- Concrete mechanism with exponential slashing. -/
def exponentialMechanism : GovernanceMechanism :=
  { voting_method := "weighted", stake_method := "token_based",
    slashing_method := "exponential", consensus_threshold := 0.6,
    slashing_rate := 0.1, sybil_resistance := 0, max_voting_power := 1 }

/-- A never-slashed agent of stake 10. -/
def freshAgent : Agent :=
  { agent_id := 3, agent_type := AgentType.collusion, stake := 10,
    original_stake := 10, amount_slashed := 0, honesty_threshold := 0 }

/-- The same agent after one unit of slashing. -/
def onceSlashedAgent : Agent :=
  { agent_id := 3, agent_type := AgentType.collusion, stake := 10,
    original_stake := 10, amount_slashed := 1, honesty_threshold := 0 }

/-- C8: under the exponential slashing method the slash amount is the base
penalty times the multiplier `1 + amount_slashed / original_stake`, which is
strictly increasing in `amount_slashed` (for a fixed positive original
stake); in particular an agent with strictly positive prior `amount_slashed`
receives a strictly larger multiplier than the multiplier 1 of a first
slashing. -/
theorem C8_exponential_multiplier (m : GovernanceMechanism) (a1 a2 : Agent)
    (hm : m.slashing_method = "exponential") (hrate : 0 < m.slashing_rate)
    (ho : 0 < a1.original_stake) (ho2 : a2.original_stake = a1.original_stake)
    (hs : a1.amount_slashed < a2.amount_slashed) :
    VotingSystem.calculate_slash_amount m a1 =
      a1.get_effective_stake * m.slashing_rate *
        (1 + a1.amount_slashed / a1.original_stake) ∧
    VotingSystem.calculate_slash_amount m a2 =
      a2.get_effective_stake * m.slashing_rate *
        (1 + a2.amount_slashed / a2.original_stake) ∧
    1 + a1.amount_slashed / a1.original_stake <
      1 + a2.amount_slashed / a2.original_stake ∧
    (a1.amount_slashed = 0 → 0 < a2.amount_slashed →
      1 + a1.amount_slashed / a1.original_stake = 1 ∧
      1 < 1 + a2.amount_slashed / a2.original_stake) := by
  refine ⟨?_, ?_, ?_, ?_⟩
  · simp [VotingSystem.calculate_slash_amount, hm]
  · simp [VotingSystem.calculate_slash_amount, hm]
  · rw [ho2]
    have := (div_lt_div_iff_of_pos_right ho).2 hs
    linarith
  · intro hz hpos
    constructor
    · rw [hz]
      simp
    · have : 0 < a2.amount_slashed / a2.original_stake :=
        div_pos hpos (ho2 ▸ ho)
      linarith

/-- C8 (witness): the exponential-multiplier theorem applied to a stake-10
agent before and after one unit of slashing, at rate 0.1. -/
theorem C8_witness :
    VotingSystem.calculate_slash_amount exponentialMechanism freshAgent =
      freshAgent.get_effective_stake * exponentialMechanism.slashing_rate *
        (1 + freshAgent.amount_slashed / freshAgent.original_stake) ∧
    VotingSystem.calculate_slash_amount exponentialMechanism onceSlashedAgent =
      onceSlashedAgent.get_effective_stake * exponentialMechanism.slashing_rate *
        (1 + onceSlashedAgent.amount_slashed / onceSlashedAgent.original_stake) ∧
    1 + freshAgent.amount_slashed / freshAgent.original_stake <
      1 + onceSlashedAgent.amount_slashed / onceSlashedAgent.original_stake ∧
    (freshAgent.amount_slashed = 0 → 0 < onceSlashedAgent.amount_slashed →
      1 + freshAgent.amount_slashed / freshAgent.original_stake = 1 ∧
      1 < 1 + onceSlashedAgent.amount_slashed / onceSlashedAgent.original_stake) :=
  C8_exponential_multiplier exponentialMechanism freshAgent onceSlashedAgent
    (by norm_num [exponentialMechanism]) (by norm_num [exponentialMechanism])
    (by norm_num [freshAgent]) (by norm_num [freshAgent, onceSlashedAgent])
    (by norm_num [freshAgent, onceSlashedAgent])

/-! ### C4: unrecognized slashing method -/

/-- Concrete mechanism whose slashing method is not one of the four
recognized values. -/
def invalidSlashingMechanism : GovernanceMechanism :=
  { voting_method := "weighted", stake_method := "token_based",
    slashing_method := "quadratic_decay", consensus_threshold := 0.6,
    slashing_rate := 0.1, sybil_resistance := 0, max_voting_power := 1 }

/-- C4 (counterexample): the claim asserts that an unrecognized slashing
method (with positive rate) makes the slashing engine fail with an
invalid-configuration error instead of applying a default penalty.  The
final `else` branch of `calculate_slash_amount` does not raise: at the
concrete invalid method "quadratic_decay" it returns the default base
penalty `effective_stake × slashing_rate = 10 × 0.1 = 1`. -/
theorem C4_counterexample :
    invalidSlashingMechanism.slashing_method ∉
      ["none", "linear", "exponential", "progressive"] ∧
    0 < invalidSlashingMechanism.slashing_rate ∧
    VotingSystem.calculate_slash_amount invalidSlashingMechanism freshAgent =
      freshAgent.get_effective_stake * invalidSlashingMechanism.slashing_rate ∧
    VotingSystem.calculate_slash_amount invalidSlashingMechanism freshAgent = 1 := by
  refine ⟨?_, ?_, ?_, ?_⟩
  · simp [invalidSlashingMechanism]
  · norm_num [invalidSlashingMechanism]
  · simp [invalidSlashingMechanism, VotingSystem.calculate_slash_amount]
  · norm_num [invalidSlashingMechanism, freshAgent,
      VotingSystem.calculate_slash_amount, Agent.get_effective_stake]

/-- C4 (amended): for a mechanism whose slashing method is not one of
none/linear/exponential/progressive, `calculate_slash_amount` does not fail;
it falls through to the default and returns the base penalty
`effective_stake × slashing_rate` (the same value as the linear method). -/
theorem C4_default_penalty (m : GovernanceMechanism) (a : Agent)
    (h : m.slashing_method ∉ ["none", "linear", "exponential", "progressive"]) :
    VotingSystem.calculate_slash_amount m a =
      a.get_effective_stake * m.slashing_rate := by
  simp only [List.mem_cons, List.mem_singleton, not_or] at h
  obtain ⟨h1, h2, h3, h4⟩ := h
  simp [VotingSystem.calculate_slash_amount, h2, h3, h4]

/-- C4 (witness): the amended theorem applied at the concrete invalid
mechanism. -/
theorem C4_witness :
    VotingSystem.calculate_slash_amount invalidSlashingMechanism freshAgent =
      freshAgent.get_effective_stake * invalidSlashingMechanism.slashing_rate :=
  C4_default_penalty invalidSlashingMechanism freshAgent (by simp [invalidSlashingMechanism])

/-! ### C3: max voting power cap -/

/-- Unfolding of the cap when the uncapped total is nonzero. -/
theorem VotingSystem.apply_max_voting_power_cap_of_ne (m : GovernanceMechanism)
    (agents : List Agent) (voting_powers : List (ℕ × ℝ))
    (h : (voting_powers.map Prod.snd).sum ≠ 0) :
    VotingSystem.apply_max_voting_power_cap m agents voting_powers =
      voting_powers.map (fun ip =>
        if ip.2 > (voting_powers.map Prod.snd).sum * (m.max_voting_power : ℝ)
        then (ip.1, (voting_powers.map Prod.snd).sum * (m.max_voting_power : ℝ))
        else ip) := by
  simp only [VotingSystem.apply_max_voting_power_cap]
  rw [if_neg h]

/-- Unfolding of the cap when the uncapped total is zero. -/
theorem VotingSystem.apply_max_voting_power_cap_of_zero (m : GovernanceMechanism)
    (agents : List Agent) (voting_powers : List (ℕ × ℝ))
    (h : (voting_powers.map Prod.snd).sum = 0) :
    VotingSystem.apply_max_voting_power_cap m agents voting_powers = voting_powers := by
  simp only [VotingSystem.apply_max_voting_power_cap]
  rw [if_pos h]

/-- C3: for non-negative per-agent powers with strictly positive total `T`,
the cap returns, entrywise, a power at most `T × max_voting_power` and at
most the input power, and the capped total never exceeds `T`. -/
theorem C3_power_cap (m : GovernanceMechanism) (agents : List Agent)
    (voting_powers : List (ℕ × ℝ))
    (hnn : ∀ ip ∈ voting_powers, 0 ≤ ip.2)
    (hpos : 0 < (voting_powers.map Prod.snd).sum) :
    (VotingSystem.apply_max_voting_power_cap m agents voting_powers).length =
      voting_powers.length ∧
    (∀ i (h1 : i < (VotingSystem.apply_max_voting_power_cap m agents voting_powers).length)
        (h2 : i < voting_powers.length),
      ((VotingSystem.apply_max_voting_power_cap m agents voting_powers).get ⟨i, h1⟩).2 ≤
        (voting_powers.map Prod.snd).sum * (m.max_voting_power : ℝ) ∧
      ((VotingSystem.apply_max_voting_power_cap m agents voting_powers).get ⟨i, h1⟩).2 ≤
        (voting_powers.get ⟨i, h2⟩).2) ∧
    ((VotingSystem.apply_max_voting_power_cap m agents voting_powers).map Prod.snd).sum ≤
      (voting_powers.map Prod.snd).sum := by
  have hne : (voting_powers.map Prod.snd).sum ≠ 0 := ne_of_gt hpos
  rw [VotingSystem.apply_max_voting_power_cap_of_ne m agents voting_powers hne]
  refine ⟨List.length_map _ _, ?_, ?_⟩
  · intro i h1 h2
    simp only [List.get_eq_getElem, List.getElem_map]
    split_ifs with h
    · exact ⟨le_refl _, le_of_lt h⟩
    · exact ⟨not_lt.1 h, le_refl _⟩
  · rw [List.map_map]
    refine List.sum_le_sum ?_
    intro ip hip
    simp only [Function.comp_apply]
    split_ifs with h
    · exact le_of_lt h
    · exact le_refl _

/-- Concrete mechanism with a 50% voting power cap. -/
def halfCapMechanism : GovernanceMechanism :=
  { voting_method := "weighted", stake_method := "token_based",
    slashing_method := "none", consensus_threshold := 0.5,
    slashing_rate := 0, sybil_resistance := 0, max_voting_power := 0.5 }

/-- C3 (witness): the cap theorem applied to the powers [(1, 3), (2, 1)]
(total 4) with a 50% cap. -/
theorem C3_witness :
    (VotingSystem.apply_max_voting_power_cap halfCapMechanism []
        [((1 : ℕ), (3 : ℝ)), (2, 1)]).length = [((1 : ℕ), (3 : ℝ)), (2, 1)].length ∧
    (∀ i (h1 : i < (VotingSystem.apply_max_voting_power_cap halfCapMechanism []
          [((1 : ℕ), (3 : ℝ)), (2, 1)]).length)
        (h2 : i < [((1 : ℕ), (3 : ℝ)), (2, 1)].length),
      ((VotingSystem.apply_max_voting_power_cap halfCapMechanism []
          [((1 : ℕ), (3 : ℝ)), (2, 1)]).get ⟨i, h1⟩).2 ≤
        ([((1 : ℕ), (3 : ℝ)), (2, 1)].map Prod.snd).sum *
          (halfCapMechanism.max_voting_power : ℝ) ∧
      ((VotingSystem.apply_max_voting_power_cap halfCapMechanism []
          [((1 : ℕ), (3 : ℝ)), (2, 1)]).get ⟨i, h1⟩).2 ≤
        ([((1 : ℕ), (3 : ℝ)), (2, 1)].get ⟨i, h2⟩).2) ∧
    ((VotingSystem.apply_max_voting_power_cap halfCapMechanism []
        [((1 : ℕ), (3 : ℝ)), (2, 1)]).map Prod.snd).sum ≤
      ([((1 : ℕ), (3 : ℝ)), (2, 1)].map Prod.snd).sum :=
  C3_power_cap halfCapMechanism [] [((1 : ℕ), (3 : ℝ)), (2, 1)]
    (by intro ip hip; simp at hip; rcases hip with h | h <;> simp [h])
    (by simp; norm_num)

/-! ### C6: voting power from stake method and voting method -/

/-- For a recognized stake method, the base power is: 1 for equal_weight,
the effective stake for token_based and reputation_based, and
`(effective_stake + 1)/2` for hybrid. -/
theorem VotingSystem.base_power_of_recognized (m : GovernanceMechanism) (a : Agent)
    (hsm : m.stake_method ∈ ["equal_weight", "token_based", "reputation_based", "hybrid"]) :
    VotingSystem.base_power m a =
      some (if m.stake_method = "equal_weight" then 1
            else if m.stake_method = "hybrid" then ((a.get_effective_stake : ℝ) + 1) / 2
            else (a.get_effective_stake : ℝ)) := by
  simp only [List.mem_cons, List.mem_singleton, List.not_mem_nil, or_false] at hsm
  rcases hsm with h | h | h | h <;> simp [VotingSystem.base_power, h]

/-- For a recognized voting method, the voting power is the transform of the
base power: constant 1 for simple_majority, the base power for weighted, its
square root for quadratic. -/
theorem VotingSystem.calculate_voting_power_of_base (m : GovernanceMechanism) (a : Agent)
    (bp : ℝ) (hb : VotingSystem.base_power m a = some bp)
    (hvm : m.voting_method ∈ ["simple_majority", "weighted", "quadratic"]) :
    VotingSystem.calculate_voting_power m a =
      some (if m.voting_method = "simple_majority" then 1
            else if m.voting_method = "weighted" then bp
            else Real.sqrt bp) := by
  simp only [List.mem_cons, List.mem_singleton, List.not_mem_nil, or_false] at hvm
  simp only [VotingSystem.calculate_voting_power, hb]
  rcases hvm with h | h | h <;> simp [h]

/-- C6: for every agent and recognized configuration, the base power is 1.0
for equal_weight, the effective stake for token_based/reputation_based, and
`(effective_stake + 1)/2` for hybrid; the voting power is the constant 1 for
simple_majority (so any two agents — in particular with different stakes —
get equal power), the base power for weighted, and its square root for
quadratic. -/
theorem C6_voting_power (m : GovernanceMechanism) (a : Agent)
    (hsm : m.stake_method ∈ ["equal_weight", "token_based", "reputation_based", "hybrid"])
    (hvm : m.voting_method ∈ ["simple_majority", "weighted", "quadratic"]) :
    ∃ bp : ℝ,
      VotingSystem.base_power m a = some bp ∧
      bp = (if m.stake_method = "equal_weight" then 1
            else if m.stake_method = "hybrid" then ((a.get_effective_stake : ℝ) + 1) / 2
            else (a.get_effective_stake : ℝ)) ∧
      VotingSystem.calculate_voting_power m a =
        some (if m.voting_method = "simple_majority" then 1
              else if m.voting_method = "weighted" then bp
              else Real.sqrt bp) ∧
      (m.voting_method = "simple_majority" →
        ∀ b : Agent, VotingSystem.calculate_voting_power m b = some 1) := by
  refine ⟨_, VotingSystem.base_power_of_recognized m a hsm, rfl,
    VotingSystem.calculate_voting_power_of_base m a _
      (VotingSystem.base_power_of_recognized m a hsm) hvm, ?_⟩
  intro hsimple b
  rw [VotingSystem.calculate_voting_power_of_base m b _
    (VotingSystem.base_power_of_recognized m b hsm) hvm, if_pos hsimple]

/-- C6 (witness): the voting-power theorem applied at the concrete
token_based/weighted mechanism and a concrete agent. -/
theorem C6_witness :
    ∃ bp : ℝ,
      VotingSystem.base_power halfCapMechanism freshAgent = some bp ∧
      bp = (if halfCapMechanism.stake_method = "equal_weight" then 1
            else if halfCapMechanism.stake_method = "hybrid" then
              ((freshAgent.get_effective_stake : ℝ) + 1) / 2
            else (freshAgent.get_effective_stake : ℝ)) ∧
      VotingSystem.calculate_voting_power halfCapMechanism freshAgent =
        some (if halfCapMechanism.voting_method = "simple_majority" then 1
              else if halfCapMechanism.voting_method = "weighted" then bp
              else Real.sqrt bp) ∧
      (halfCapMechanism.voting_method = "simple_majority" →
        ∀ b : Agent, VotingSystem.calculate_voting_power halfCapMechanism b = some 1) :=
  C6_voting_power halfCapMechanism freshAgent (by simp [halfCapMechanism])
    (by simp [halfCapMechanism])

/-! ### Association-list helpers -/

/-- Lookup of an absent key. -/
theorem lookup_eq_none_of_not_mem {β : Type} (k : ℕ) (l : List (ℕ × β))
    (h : k ∉ l.map Prod.fst) : l.lookup k = none := by
  induction l with
  | nil => rfl
  | cons iv rest ih =>
    simp only [List.map_cons, List.mem_cons, not_or] at h
    have hbe : (k == iv.1) = false := beq_eq_false_iff_ne.2 h.1
    simp [List.lookup, hbe, ih h.2]

/-- A successful lookup returns a pair of the list. -/
theorem mem_of_lookup_eq_some {β : Type} (k : ℕ) (b : β) (l : List (ℕ × β))
    (h : l.lookup k = some b) : (k, b) ∈ l := by
  induction l with
  | nil => simp [List.lookup] at h
  | cons iv rest ih =>
    by_cases hke : k = iv.1
    · have hbe : (k == iv.1) = true := beq_iff_eq.2 hke
      simp only [List.lookup, hbe] at h
      have hb : iv.2 = b := by simpa using h
      subst hke
      rw [← hb]
      simp
    · have hbe : (k == iv.1) = false := beq_eq_false_iff_ne.2 hke
      simp only [List.lookup, hbe] at h
      exact List.mem_cons_of_mem iv (ih h)

/-- Lookup in an association list whose values are a function of the keys. -/
theorem lookup_of_forall_snd {β : Type} (f : ℕ → β) (l : List (ℕ × β))
    (hf : ∀ iv ∈ l, iv.2 = f iv.1) (k : ℕ) (hk : k ∈ l.map Prod.fst) :
    l.lookup k = some (f k) := by
  induction l with
  | nil => simp at hk
  | cons iv rest ih =>
    by_cases hke : k = iv.1
    · have hbe : (k == iv.1) = true := beq_iff_eq.2 hke
      have h2 := hf iv (List.mem_cons_self iv rest)
      simp [List.lookup, hbe, h2, hke]
    · have hbe : (k == iv.1) = false := beq_eq_false_iff_ne.2 hke
      simp only [List.map_cons, List.mem_cons] at hk
      rcases hk with h | h
      · exact absurd h hke
      · simp only [List.lookup, hbe]
        exact ih (fun x hx => hf x (List.mem_cons_of_mem iv hx)) h

/-- Looked-up powers are non-negative when all stored powers are. -/
theorem lookup_getD_nonneg (l : List (ℕ × ℝ)) (h : ∀ ip ∈ l, 0 ≤ ip.2) (k : ℕ) :
    0 ≤ (l.lookup k).getD 0 := by
  induction l with
  | nil => simp [List.lookup]
  | cons ip rest ih =>
    cases hbe : (k == ip.1) with
    | false =>
      simp only [List.lookup, hbe]
      exact ih (fun x hx => h x (List.mem_cons_of_mem ip hx))
    | true =>
      simp only [List.lookup, hbe, Option.getD_some]
      exact h ip (List.mem_cons_self ip rest)

/-! ### Characterization of the slashing loop -/

/-- Pointwise action of the slashing loop on one agent: the agent is slashed
exactly when its (unique) vote entry satisfies `slashCondition`. -/
def slashF (m : GovernanceMechanism) (good passed : Bool) (votes : List (ℕ × Bool))
    (a : Agent) : Agent :=
  match votes.lookup a.agent_id with
  | some v =>
    if slashCondition good passed v then
      a.apply_slashing (VotingSystem.calculate_slash_amount m a)
    else a
  | none => a

/-- `slashF` never changes any field except `amount_slashed`. -/
theorem slashF_frame (m : GovernanceMechanism) (good passed : Bool)
    (votes : List (ℕ × Bool)) (a : Agent) :
    (slashF m good passed votes a).agent_id = a.agent_id ∧
    (slashF m good passed votes a).agent_type = a.agent_type ∧
    (slashF m good passed votes a).stake = a.stake ∧
    (slashF m good passed votes a).original_stake = a.original_stake ∧
    (slashF m good passed votes a).honesty_threshold = a.honesty_threshold := by
  unfold slashF
  cases votes.lookup a.agent_id with
  | none => exact ⟨rfl, rfl, rfl, rfl, rfl⟩
  | some v =>
    by_cases hc : slashCondition good passed v = true
    · simp only [hc, if_true]
      exact ⟨rfl, rfl, rfl, rfl, rfl⟩
    · simp only [hc, if_false]
      exact ⟨rfl, rfl, rfl, rfl, rfl⟩

/-- Unfolding of `slashF` at a present key. -/
theorem slashF_of_lookup_some (m : GovernanceMechanism) (good passed : Bool)
    (votes : List (ℕ × Bool)) (a : Agent) (v : Bool)
    (hl : votes.lookup a.agent_id = some v) :
    slashF m good passed votes a =
      if slashCondition good passed v then
        a.apply_slashing (VotingSystem.calculate_slash_amount m a)
      else a := by
  unfold slashF
  rw [hl]

/-- Unfolding of `slashF` at an absent key. -/
theorem slashF_of_lookup_none (m : GovernanceMechanism) (good passed : Bool)
    (votes : List (ℕ × Bool)) (a : Agent)
    (hl : votes.lookup a.agent_id = none) :
    slashF m good passed votes a = a := by
  unfold slashF
  rw [hl]

/-- If `slashF` changed the slashed amount, the agent's id is among the
filtered (slashed) vote entries. -/
theorem slashF_changed_mem (m : GovernanceMechanism) (good passed : Bool)
    (votes : List (ℕ × Bool)) (a : Agent)
    (h : (slashF m good passed votes a).amount_slashed ≠ a.amount_slashed) :
    a.agent_id ∈
      (votes.filter (fun iv => slashCondition good passed iv.2)).map Prod.fst := by
  cases hl : votes.lookup a.agent_id with
  | none => rw [slashF_of_lookup_none m good passed votes a hl] at h; exact absurd rfl h
  | some v =>
    rw [slashF_of_lookup_some m good passed votes a v hl] at h
    by_cases hc : slashCondition good passed v = true
    · refine List.mem_map.2 ⟨(a.agent_id, v), List.mem_filter.2 ⟨?_, ?_⟩, rfl⟩
      · exact mem_of_lookup_eq_some a.agent_id v votes hl
      · exact hc
    · rw [if_neg hc] at h
      exact absurd rfl h

/-- First component of the slashing loop: with distinct vote keys, the loop
acts as the pointwise map `slashF`. -/
theorem slash_loop_fst (m : GovernanceMechanism) (good passed : Bool)
    (votes : List (ℕ × Bool)) :
    ∀ (agents : List Agent) (acc : List ℕ), (votes.map Prod.fst).Nodup →
      (VotingSystem.slash_loop m good passed votes agents acc).1 =
        agents.map (slashF m good passed votes) := by
  induction votes with
  | nil =>
    intro agents acc _
    have hmap : agents.map (slashF m good passed []) = agents.map id :=
      List.map_congr_left (fun a _ => rfl)
    rw [hmap, List.map_id]
    rfl
  | cons iv rest ih =>
    intro agents acc hnd
    rw [List.map_cons, List.nodup_cons] at hnd
    obtain ⟨hni, hnd'⟩ := hnd
    by_cases hc : slashCondition good passed iv.2 = true
    · rw [VotingSystem.slash_loop, if_pos hc, ih _ _ hnd', VotingSystem.slash_update,
        List.map_map]
      refine List.map_congr_left ?_
      intro a _
      simp only [Function.comp_apply]
      by_cases haid : a.agent_id = iv.1
      · have hupd : (if a.agent_id = iv.1 then
            a.apply_slashing (VotingSystem.calculate_slash_amount m a) else a) =
            a.apply_slashing (VotingSystem.calculate_slash_amount m a) := if_pos haid
        rw [hupd]
        have hid2 : (a.apply_slashing (VotingSystem.calculate_slash_amount m a)).agent_id =
            a.agent_id := rfl
        have hlr : rest.lookup
            (a.apply_slashing (VotingSystem.calculate_slash_amount m a)).agent_id = none := by
          rw [hid2, haid]
          exact lookup_eq_none_of_not_mem iv.1 rest hni
        have hlc : (iv :: rest).lookup a.agent_id = some iv.2 := by
          have hbe : (a.agent_id == iv.1) = true := beq_iff_eq.2 haid
          simp [List.lookup, hbe]
        rw [slashF_of_lookup_none m good passed rest _ hlr,
          slashF_of_lookup_some m good passed (iv :: rest) a iv.2 hlc, if_pos hc]
      · have hupd : (if a.agent_id = iv.1 then
            a.apply_slashing (VotingSystem.calculate_slash_amount m a) else a) = a :=
          if_neg haid
        rw [hupd]
        have hbe : (a.agent_id == iv.1) = false := beq_eq_false_iff_ne.2 haid
        have hstep : (iv :: rest).lookup a.agent_id = rest.lookup a.agent_id := by
          simp [List.lookup, hbe]
        unfold slashF
        rw [hstep]
    · rw [VotingSystem.slash_loop, if_neg hc, ih _ _ hnd']
      refine List.map_congr_left ?_
      intro a _
      by_cases haid : a.agent_id = iv.1
      · have hlr : rest.lookup a.agent_id = none := by
          rw [haid]
          exact lookup_eq_none_of_not_mem iv.1 rest hni
        have hlc : (iv :: rest).lookup a.agent_id = some iv.2 := by
          have hbe : (a.agent_id == iv.1) = true := beq_iff_eq.2 haid
          simp [List.lookup, hbe]
        rw [slashF_of_lookup_none m good passed rest a hlr,
          slashF_of_lookup_some m good passed (iv :: rest) a iv.2 hlc, if_neg hc]
      · have hbe : (a.agent_id == iv.1) = false := beq_eq_false_iff_ne.2 haid
        have hstep : (iv :: rest).lookup a.agent_id = rest.lookup a.agent_id := by
          simp [List.lookup, hbe]
        unfold slashF
        rw [hstep]

/-- Second component of the slashing loop: the accumulated slashed ids are
the keys of the vote entries satisfying `slashCondition`, in order. -/
theorem slash_loop_snd (m : GovernanceMechanism) (good passed : Bool)
    (votes : List (ℕ × Bool)) :
    ∀ (agents : List Agent) (acc : List ℕ),
      (VotingSystem.slash_loop m good passed votes agents acc).2 =
        acc ++ (votes.filter (fun iv => slashCondition good passed iv.2)).map Prod.fst := by
  induction votes with
  | nil => intro agents acc; simp [VotingSystem.slash_loop]
  | cons iv rest ih =>
    intro agents acc
    by_cases hc : slashCondition good passed iv.2 = true
    · rw [VotingSystem.slash_loop, if_pos hc, ih]
      simp [List.filter_cons, hc, List.append_assoc]
    · rw [VotingSystem.slash_loop, if_neg hc, ih]
      simp [List.filter_cons, hc]

/-! ### Slash amounts: base penalty and positivity -/

/-- Every slashing method computes `base penalty × multiplier` with a
multiplier at least 1, where the base penalty is
`effective_stake × slashing_rate`. -/
theorem VotingSystem.calculate_slash_amount_eq_base_mul (m : GovernanceMechanism)
    (a : Agent) (h0 : 0 ≤ a.amount_slashed) (ho : 0 < a.original_stake)
    (hr : 0 ≤ m.slashing_rate) :
    ∃ mult : ℚ, 1 ≤ mult ∧
      VotingSystem.calculate_slash_amount m a =
        a.get_effective_stake * m.slashing_rate * mult := by
  unfold VotingSystem.calculate_slash_amount
  split_ifs with h1 h2 h3 h4
  · exact ⟨1, le_refl 1, (mul_one _).symm⟩
  · refine ⟨1 + a.amount_slashed / a.original_stake, ?_, rfl⟩
    have := div_nonneg h0 (le_of_lt ho)
    linarith
  · refine ⟨1 + a.amount_slashed / (m.slashing_rate * a.original_stake) * 0.5, ?_, rfl⟩
    have hd : 0 ≤ a.amount_slashed / (m.slashing_rate * a.original_stake) :=
      div_nonneg h0 (mul_nonneg hr (le_of_lt ho))
    nlinarith
  · refine ⟨1, by norm_num, ?_⟩
    norm_num
  · exact ⟨1, le_refl 1, (mul_one _).symm⟩

/-- With a positive rate and an agent that is not yet fully slashed, the
computed slash amount is strictly positive. -/
theorem VotingSystem.calculate_slash_amount_pos (m : GovernanceMechanism)
    (a : Agent) (h0 : 0 ≤ a.amount_slashed) (hlt : a.amount_slashed < a.stake)
    (ho : 0 < a.original_stake) (hr : 0 < m.slashing_rate) :
    0 < VotingSystem.calculate_slash_amount m a := by
  obtain ⟨mult, hm1, heq⟩ :=
    VotingSystem.calculate_slash_amount_eq_base_mul m a h0 ho (le_of_lt hr)
  rw [heq]
  have heff : 0 < a.get_effective_stake := by
    rw [Agent.get_effective_stake]
    have : 0 < a.stake - a.amount_slashed := by linarith
    rw [max_eq_right (le_of_lt this)]
    exact this
  have := mul_pos heff hr
  nlinarith

/-- `VotingSystem.apply_slashing` with slashing disabled: no agent changes
and nobody is reported slashed. -/
theorem VotingSystem.apply_slashing_disabled (m : GovernanceMechanism)
    (agents : List Agent) (votes_cast : List (ℕ × Bool)) (proposal : Proposal)
    (proposal_passed : Bool)
    (h : m.slashing_method = "none" ∨ m.slashing_rate = 0) :
    VotingSystem.apply_slashing m agents votes_cast proposal proposal_passed =
      (agents, []) := by
  unfold VotingSystem.apply_slashing
  rw [if_pos h]

/-- `VotingSystem.apply_slashing` with slashing enabled and distinct vote
keys: the agents are mapped through `slashF` and the slashed ids are the
keys of the vote entries satisfying `slashCondition`. -/
theorem VotingSystem.apply_slashing_enabled (m : GovernanceMechanism)
    (agents : List Agent) (votes_cast : List (ℕ × Bool)) (proposal : Proposal)
    (proposal_passed : Bool)
    (h : ¬(m.slashing_method = "none" ∨ m.slashing_rate = 0))
    (hnd : (votes_cast.map Prod.fst).Nodup) :
    VotingSystem.apply_slashing m agents votes_cast proposal proposal_passed =
      (agents.map (slashF m proposal.is_objectively_good proposal_passed votes_cast),
       (votes_cast.filter
          (fun iv => slashCondition proposal.is_objectively_good proposal_passed iv.2)).map
         Prod.fst) := by
  unfold VotingSystem.apply_slashing
  rw [if_neg h]
  refine Prod.ext ?_ ?_
  · exact slash_loop_fst m proposal.is_objectively_good proposal_passed votes_cast
      agents [] hnd
  · simpa using slash_loop_snd m proposal.is_objectively_good proposal_passed votes_cast
      agents []

/-! ### C2: who gets slashed -/

/-- The `votes_cast` association list of a round in which the agent with id
`k` votes `v k` (one entry per agent, keyed by agent id, in agent order, as
built by `conduct_vote`). -/
def votesFor (agents : List Agent) (v : ℕ → Bool) : List (ℕ × Bool) :=
  agents.map (fun a => (a.agent_id, v a.agent_id))

/-- The keys of `votesFor` are the agent ids. -/
theorem votesFor_fst (agents : List Agent) (v : ℕ → Bool) :
    (votesFor agents v).map Prod.fst = agents.map Agent.agent_id := by
  simp [votesFor, List.map_map, Function.comp]

/-- Every value of `votesFor` is the vote of its key. -/
theorem votesFor_snd (agents : List Agent) (v : ℕ → Bool) :
    ∀ iv ∈ votesFor agents v, iv.2 = v iv.1 := by
  intro iv hiv
  obtain ⟨a, _, rfl⟩ := List.mem_map.1 hiv
  rfl

/-- `slashCondition` as a proposition over the three booleans. -/
theorem slashCondition_iff (good passed vote : Bool) :
    slashCondition good passed vote = true ↔
      (passed = true ∧ good = false ∧ vote = true) ∨
      (passed = false ∧ good = true ∧ vote = false) := by
  cases good <;> cases passed <;> cases vote <;> simp [slashCondition]

/-- C2: with slashing enabled (method ≠ none, rate > 0) and agents in the
reachable domain (distinct ids, `0 ≤ amount_slashed < stake`, positive
original stake), `apply_slashing` slashes an agent — its id is reported and
its `amount_slashed` strictly increases — if and only if (the proposal
passed ∧ it is objectively bad ∧ the agent voted YES) ∨ (it failed ∧ it is
objectively good ∧ the agent voted NO); every slash amount is the base
penalty `effective_stake × slashing_rate` times a multiplier ≥ 1; with the
method `none` or rate 0 nothing changes; and a `conduct_vote` round with a
correct outcome slashes nobody and leaves the agents unchanged. -/
theorem C2_slashing (m : GovernanceMechanism) (agents : List Agent)
    (v : ℕ → Bool) (proposal : Proposal) (passed : Bool)
    (hnd : (agents.map Agent.agent_id).Nodup)
    (hdom : ∀ a ∈ agents, 0 ≤ a.amount_slashed ∧ a.amount_slashed < a.stake ∧
      0 < a.original_stake) :
    (m.slashing_method ≠ "none" → 0 < m.slashing_rate →
      ∀ a ∈ agents,
        ((a.agent_id ∈
            (VotingSystem.apply_slashing m agents (votesFor agents v) proposal passed).2 ∧
          ∃ b ∈ (VotingSystem.apply_slashing m agents (votesFor agents v) proposal passed).1,
            b.agent_id = a.agent_id ∧ a.amount_slashed < b.amount_slashed)
          ↔ ((passed = true ∧ proposal.is_objectively_good = false ∧ v a.agent_id = true) ∨
             (passed = false ∧ proposal.is_objectively_good = true ∧
               v a.agent_id = false))) ∧
        (∃ mult : ℚ, 1 ≤ mult ∧
          VotingSystem.calculate_slash_amount m a =
            a.get_effective_stake * m.slashing_rate * mult)) ∧
    ((m.slashing_method = "none" ∨ m.slashing_rate = 0) →
      VotingSystem.apply_slashing m agents (votesFor agents v) proposal passed =
        (agents, [])) ∧
    (∀ (p2 : Proposal) (rv rs : ℕ → ℚ) (res : VoteResult) (agents2 : List Agent),
      VotingSystem.conduct_vote m agents p2 rv rs = some (res, agents2) →
      res.correct_outcome = true → res.agents_slashed = [] ∧ agents2 = agents) := by
  refine ⟨?_, ?_, ?_⟩
  · intro hmne hrate a ha
    obtain ⟨hs0, hslt, ho⟩ := hdom a ha
    have henabled : ¬(m.slashing_method = "none" ∨ m.slashing_rate = 0) := by
      rintro (h | h)
      · exact hmne h
      · exact absurd h (ne_of_gt hrate)
    have hvnd : ((votesFor agents v).map Prod.fst).Nodup := by
      rw [votesFor_fst]; exact hnd
    rw [VotingSystem.apply_slashing_enabled m agents (votesFor agents v) proposal passed
      henabled hvnd]
    constructor
    · constructor
      · rintro ⟨hmem, -⟩
        obtain ⟨iv, hivf, hivfst⟩ := List.mem_map.1 hmem
        have hcond := (List.mem_filter.1 hivf).2
        have hsnd := votesFor_snd agents v iv (List.mem_filter.1 hivf).1
        rw [hsnd, hivfst] at hcond
        exact (slashCondition_iff proposal.is_objectively_good passed (v a.agent_id)).1 hcond
      · intro hrhs
        have hcond : slashCondition proposal.is_objectively_good passed (v a.agent_id) =
            true := (slashCondition_iff _ _ _).2 hrhs
        have hentry : (a.agent_id, v a.agent_id) ∈ votesFor agents v :=
          List.mem_map.2 ⟨a, ha, rfl⟩
        constructor
        · exact List.mem_map.2 ⟨(a.agent_id, v a.agent_id),
            List.mem_filter.2 ⟨hentry, hcond⟩, rfl⟩
        · refine ⟨slashF m proposal.is_objectively_good passed (votesFor agents v) a,
            List.mem_map.2 ⟨a, ha, rfl⟩,
            (slashF_frame m proposal.is_objectively_good passed (votesFor agents v) a).1,
            ?_⟩
          have hlk : (votesFor agents v).lookup a.agent_id = some (v a.agent_id) := by
            refine lookup_of_forall_snd v (votesFor agents v) (votesFor_snd agents v)
              a.agent_id ?_
            rw [votesFor_fst]
            exact List.mem_map.2 ⟨a, ha, rfl⟩
          rw [slashF_of_lookup_some m proposal.is_objectively_good passed
            (votesFor agents v) a (v a.agent_id) hlk, if_pos hcond,
            Agent.apply_slashing_amount]
          have hpos := VotingSystem.calculate_slash_amount_pos m a hs0 hslt ho hrate
          split_ifs with hclamp
          · exact hslt
          · linarith
    · exact VotingSystem.calculate_slash_amount_eq_base_mul m a hs0 ho (le_of_lt hrate)
  · intro h
    exact VotingSystem.apply_slashing_disabled m agents (votesFor agents v) proposal
      passed h
  · intro p2 rv rs res agents2 heq hco
    cases hcp : VotingSystem.collect_powers m rs agents with
    | none =>
      rw [VotingSystem.conduct_vote] at heq
      simp only [hcp] at heq
      exact absurd heq (by simp)
    | some powers =>
      simp only [VotingSystem.conduct_vote, hcp] at heq
      have h2 := Option.some.inj heq
      simp only [Prod.mk.injEq] at h2
      obtain ⟨hres, hag⟩ := h2
      subst hres
      subst hag
      dsimp only at hco ⊢
      rw [if_pos hco]
      exact ⟨rfl, rfl⟩

/-- Concrete mechanism with linear slashing at rate 0.1. -/
def linearMechanism : GovernanceMechanism :=
  { voting_method := "weighted", stake_method := "token_based",
    slashing_method := "linear", consensus_threshold := 0.5,
    slashing_rate := 0.1, sybil_resistance := 0, max_voting_power := 1 }

/-- Concrete objectively bad proposal (quality 0.3). -/
def badProposal : Proposal := { proposal_id := 1, quality := 0.3 }

/-- C2 (witness): the slashing theorem applied to a single stake-10 agent
voting YES on a bad proposal that passed, under linear slashing. -/
theorem C2_witness :
    (linearMechanism.slashing_method ≠ "none" → 0 < linearMechanism.slashing_rate →
      ∀ a ∈ [freshAgent],
        ((a.agent_id ∈ (VotingSystem.apply_slashing linearMechanism [freshAgent]
              (votesFor [freshAgent] (fun _ => true)) badProposal true).2 ∧
          ∃ b ∈ (VotingSystem.apply_slashing linearMechanism [freshAgent]
              (votesFor [freshAgent] (fun _ => true)) badProposal true).1,
            b.agent_id = a.agent_id ∧ a.amount_slashed < b.amount_slashed) ↔
          ((true = true ∧ badProposal.is_objectively_good = false ∧ true = true) ∨
           (true = false ∧ badProposal.is_objectively_good = true ∧ true = false))) ∧
        (∃ mult : ℚ, 1 ≤ mult ∧
          VotingSystem.calculate_slash_amount linearMechanism a =
            a.get_effective_stake * linearMechanism.slashing_rate * mult)) ∧
    ((linearMechanism.slashing_method = "none" ∨ linearMechanism.slashing_rate = 0) →
      VotingSystem.apply_slashing linearMechanism [freshAgent]
        (votesFor [freshAgent] (fun _ => true)) badProposal true = ([freshAgent], [])) ∧
    (∀ (p2 : Proposal) (rv rs : ℕ → ℚ) (res : VoteResult) (agents2 : List Agent),
      VotingSystem.conduct_vote linearMechanism [freshAgent] p2 rv rs =
        some (res, agents2) →
      res.correct_outcome = true → res.agents_slashed = [] ∧ agents2 = [freshAgent]) :=
  C2_slashing linearMechanism [freshAgent] (fun _ => true) badProposal true
    (by simp)
    (by intro a ha
        simp only [List.mem_singleton] at ha
        subst ha
        refine ⟨le_refl _, by norm_num [freshAgent], by norm_num [freshAgent]⟩)

/-! ### The `conduct_vote` pipeline, stage by stage -/

/-- The `votes_cast` map of a round (step 1 of `conduct_vote`). -/
def roundVotes (agents : List Agent) (proposal : Proposal) (rv : ℕ → ℚ) :
    List (ℕ × Bool) :=
  agents.map (fun a => (a.agent_id, a.vote_on_proposal proposal.quality (rv a.agent_id)))

/-- The keys of `roundVotes` are the agent ids. -/
theorem roundVotes_fst (agents : List Agent) (proposal : Proposal) (rv : ℕ → ℚ) :
    (roundVotes agents proposal rv).map Prod.fst = agents.map Agent.agent_id := by
  simp [roundVotes, List.map_map, Function.comp]

/-- The `(total, yes, no)` tally of a round over the capped powers
(steps 2-3 of `conduct_vote`). -/
noncomputable def roundTally (m : GovernanceMechanism) (agents : List Agent)
    (proposal : Proposal) (rv : ℕ → ℚ) (powers : List (ℕ × ℝ)) : ℝ × ℝ × ℝ :=
  VotingSystem.tally (VotingSystem.apply_max_voting_power_cap m agents powers)
    (roundVotes agents proposal rv) (0, 0, 0)

/-- The threshold decision of a round (step 4 of `conduct_vote`). -/
noncomputable def roundPassed (m : GovernanceMechanism) (agents : List Agent)
    (proposal : Proposal) (rv : ℕ → ℚ) (powers : List (ℕ × ℝ)) : Bool :=
  if (roundTally m agents proposal rv powers).1 = 0 then false
  else decide ((m.consensus_threshold : ℝ) ≤
    (roundTally m agents proposal rv powers).2.1 /
      (roundTally m agents proposal rv powers).1)

/-- Steps 5-6 of `conduct_vote`: the updated agents and the slashed ids. -/
noncomputable def roundSlash (m : GovernanceMechanism) (agents : List Agent)
    (proposal : Proposal) (rv : ℕ → ℚ) (powers : List (ℕ × ℝ)) :
    List Agent × List ℕ :=
  if roundPassed m agents proposal rv powers == proposal.is_objectively_good then
    (agents, [])
  else
    VotingSystem.apply_slashing m agents (roundVotes agents proposal rv) proposal
      (roundPassed m agents proposal rv powers)

/-- Unfolding of `conduct_vote` when power collection succeeds. -/
theorem VotingSystem.conduct_vote_eq (m : GovernanceMechanism) (agents : List Agent)
    (proposal : Proposal) (rv rs : ℕ → ℚ) (powers : List (ℕ × ℝ))
    (hcp : VotingSystem.collect_powers m rs agents = some powers) :
    VotingSystem.conduct_vote m agents proposal rv rs =
      some (⟨proposal, roundPassed m agents proposal rv powers,
        (roundTally m agents proposal rv powers).1,
        (roundTally m agents proposal rv powers).2.1,
        (roundTally m agents proposal rv powers).2.2,
        roundVotes agents proposal rv,
        (roundSlash m agents proposal rv powers).2,
        roundPassed m agents proposal rv powers == proposal.is_objectively_good⟩,
        (roundSlash m agents proposal rv powers).1) := by
  simp only [VotingSystem.conduct_vote, hcp, roundSlash, roundPassed, roundTally,
    roundVotes]

/-- Sybil resistance preserves non-negativity (it either zeroes or keeps the
power). -/
theorem VotingSystem.apply_sybil_resistance_nonneg (m : GovernanceMechanism)
    (agent : Agent) (r : ℚ) (voting_power : ℝ) (h : 0 ≤ voting_power) :
    0 ≤ VotingSystem.apply_sybil_resistance m agent r voting_power := by
  unfold VotingSystem.apply_sybil_resistance
  split_ifs
  · exact le_refl 0
  · exact h

/-- For recognized methods, the computed voting power exists and is
non-negative. -/
theorem VotingSystem.calculate_voting_power_some_nonneg (m : GovernanceMechanism)
    (a : Agent)
    (hsm : m.stake_method ∈ ["equal_weight", "token_based", "reputation_based", "hybrid"])
    (hvm : m.voting_method ∈ ["simple_majority", "weighted", "quadratic"]) :
    ∃ pw : ℝ, VotingSystem.calculate_voting_power m a = some pw ∧ 0 ≤ pw := by
  refine ⟨_, VotingSystem.calculate_voting_power_of_base m a _
    (VotingSystem.base_power_of_recognized m a hsm) hvm, ?_⟩
  have heff : (0 : ℝ) ≤ (a.get_effective_stake : ℝ) := by
    rw [Agent.get_effective_stake]
    exact_mod_cast le_max_left 0 (a.stake - a.amount_slashed)
  have hbase : (0 : ℝ) ≤
      (if m.stake_method = "equal_weight" then 1
       else if m.stake_method = "hybrid" then ((a.get_effective_stake : ℝ) + 1) / 2
       else (a.get_effective_stake : ℝ)) := by
    split_ifs
    · norm_num
    · linarith
    · exact heff
  split_ifs <;>
    first
      | exact zero_le_one
      | exact heff
      | exact Real.sqrt_nonneg _
      | linarith

/-- For recognized methods, `collect_powers` succeeds, keeps the agent ids as
keys (in order), and produces non-negative powers. -/
theorem VotingSystem.collect_powers_spec (m : GovernanceMechanism) (rs : ℕ → ℚ)
    (agents : List Agent)
    (hsm : m.stake_method ∈ ["equal_weight", "token_based", "reputation_based", "hybrid"])
    (hvm : m.voting_method ∈ ["simple_majority", "weighted", "quadratic"]) :
    ∃ powers : List (ℕ × ℝ), VotingSystem.collect_powers m rs agents = some powers ∧
      powers.map Prod.fst = agents.map Agent.agent_id ∧
      ∀ ip ∈ powers, 0 ≤ ip.2 := by
  induction agents with
  | nil => exact ⟨[], rfl, rfl, by simp⟩
  | cons a rest ih =>
    obtain ⟨tl, htl, hfst, hnn⟩ := ih
    obtain ⟨pw, hpw, hpwnn⟩ :=
      VotingSystem.calculate_voting_power_some_nonneg m a hsm hvm
    refine ⟨(a.agent_id, VotingSystem.apply_sybil_resistance m a (rs a.agent_id) pw) :: tl,
      ?_, ?_, ?_⟩
    · simp only [VotingSystem.collect_powers, hpw, htl]
    · simp [hfst]
    · intro ip hip
      rcases List.mem_cons.1 hip with h | h
      · subst h
        exact VotingSystem.apply_sybil_resistance_nonneg m a (rs a.agent_id) pw hpwnn
      · exact hnn ip h

/-- The cap preserves non-negativity of powers. -/
theorem VotingSystem.apply_max_voting_power_cap_nonneg (m : GovernanceMechanism)
    (agents : List Agent) (powers : List (ℕ × ℝ))
    (hnn : ∀ ip ∈ powers, 0 ≤ ip.2) (hmvp : 0 ≤ m.max_voting_power) :
    ∀ ip ∈ VotingSystem.apply_max_voting_power_cap m agents powers, 0 ≤ ip.2 := by
  by_cases hT : (powers.map Prod.snd).sum = 0
  · rw [VotingSystem.apply_max_voting_power_cap_of_zero m agents powers hT]
    exact hnn
  · rw [VotingSystem.apply_max_voting_power_cap_of_ne m agents powers hT]
    intro ip hip
    obtain ⟨jp, hjp, rfl⟩ := List.mem_map.1 hip
    have hT0 : 0 ≤ (powers.map Prod.snd).sum := by
      refine List.sum_nonneg ?_
      intro x hx
      obtain ⟨q, hq, rfl⟩ := List.mem_map.1 hx
      exact hnn q hq
    split_ifs with h
    · exact mul_nonneg hT0 (by exact_mod_cast hmvp)
    · exact hnn jp hjp

/-- The tally preserves `total = yes + no`. -/
theorem VotingSystem.tally_total_eq (powers : List (ℕ × ℝ)) :
    ∀ (votes : List (ℕ × Bool)) (t y n : ℝ), t = y + n →
      (VotingSystem.tally powers votes (t, y, n)).1 =
        (VotingSystem.tally powers votes (t, y, n)).2.1 +
          (VotingSystem.tally powers votes (t, y, n)).2.2 := by
  intro votes
  induction votes with
  | nil => intro t y n h; exact h
  | cons iv rest ih =>
    intro t y n h
    rw [VotingSystem.tally]
    cases hv : iv.2 with
    | false =>
      simp only [hv, if_neg, Bool.false_eq_true, if_false]
      exact ih _ _ _ (by linarith)
    | true =>
      simp only [hv, if_true]
      exact ih _ _ _ (by linarith)

/-- The tally is componentwise monotone in its accumulator when all powers
are non-negative. -/
theorem VotingSystem.tally_mono (powers : List (ℕ × ℝ))
    (hnn : ∀ ip ∈ powers, 0 ≤ ip.2) :
    ∀ (votes : List (ℕ × Bool)) (t y n : ℝ),
      t ≤ (VotingSystem.tally powers votes (t, y, n)).1 ∧
      y ≤ (VotingSystem.tally powers votes (t, y, n)).2.1 ∧
      n ≤ (VotingSystem.tally powers votes (t, y, n)).2.2 := by
  intro votes
  induction votes with
  | nil => intro t y n; exact ⟨le_refl t, le_refl y, le_refl n⟩
  | cons iv rest ih =>
    intro t y n
    have hpw : 0 ≤ (powers.lookup iv.1).getD 0 := lookup_getD_nonneg powers hnn iv.1
    rw [VotingSystem.tally]
    obtain ⟨h1, h2, h3⟩ := ih (t + (powers.lookup iv.1).getD 0)
      (if iv.2 then y + (powers.lookup iv.1).getD 0 else y)
      (if iv.2 then n else n + (powers.lookup iv.1).getD 0)
    refine ⟨le_trans (by linarith) h1, ?_, ?_⟩
    · refine le_trans ?_ h2
      split_ifs
      · linarith
      · exact le_refl y
    · refine le_trans ?_ h3
      split_ifs
      · exact le_refl n
      · linarith

/-! ### C5: threshold decision and the degenerate zero-power round -/

/-- C5: for recognized methods a `conduct_vote` call always returns a result
(so the zero-power round is not an error); the decision is `passed = false`
when the capped total power is 0, and otherwise
`passed ↔ yes/total ≥ consensus_threshold`. -/
theorem C5_decision (m : GovernanceMechanism) (agents : List Agent) (proposal : Proposal)
    (rv rs : ℕ → ℚ)
    (hsm : m.stake_method ∈ ["equal_weight", "token_based", "reputation_based", "hybrid"])
    (hvm : m.voting_method ∈ ["simple_majority", "weighted", "quadratic"]) :
    ∃ res agents2,
      VotingSystem.conduct_vote m agents proposal rv rs = some (res, agents2) ∧
      (res.total_voting_power = 0 → res.passed = false) ∧
      (res.total_voting_power ≠ 0 →
        (res.passed = true ↔
          (m.consensus_threshold : ℝ) ≤
            res.yes_voting_power / res.total_voting_power)) := by
  obtain ⟨powers, hcp, -, -⟩ := VotingSystem.collect_powers_spec m rs agents hsm hvm
  refine ⟨_, _, VotingSystem.conduct_vote_eq m agents proposal rv rs powers hcp, ?_, ?_⟩
  · intro h
    dsimp only at h ⊢
    simp only [roundPassed]
    rw [if_pos h]
  · intro h
    dsimp only at h ⊢
    simp only [roundPassed]
    rw [if_neg h]
    simp only [decide_eq_true_eq]

/-- C5 (witness): the decision theorem applied at the concrete token-based
weighted mechanism, one agent, and a bad proposal. -/
theorem C5_witness :
    ∃ res agents2,
      VotingSystem.conduct_vote halfCapMechanism [freshAgent] badProposal
        (fun _ => 0) (fun _ => 0) = some (res, agents2) ∧
      (res.total_voting_power = 0 → res.passed = false) ∧
      (res.total_voting_power ≠ 0 →
        (res.passed = true ↔
          (halfCapMechanism.consensus_threshold : ℝ) ≤
            res.yes_voting_power / res.total_voting_power)) :=
  C5_decision halfCapMechanism [freshAgent] badProposal (fun _ => 0) (fun _ => 0)
    (by simp [halfCapMechanism]) (by simp [halfCapMechanism])

/-! ### C10: tally invariant -/

/-- C10: in every result of `conduct_vote` (recognized methods, non-negative
power-cap share), the yes and no powers sum exactly to the total power and
all three are non-negative. -/
theorem C10_tally_invariant (m : GovernanceMechanism) (agents : List Agent)
    (proposal : Proposal) (rv rs : ℕ → ℚ)
    (hsm : m.stake_method ∈ ["equal_weight", "token_based", "reputation_based", "hybrid"])
    (hvm : m.voting_method ∈ ["simple_majority", "weighted", "quadratic"])
    (hmvp : 0 ≤ m.max_voting_power) :
    ∃ res agents2,
      VotingSystem.conduct_vote m agents proposal rv rs = some (res, agents2) ∧
      res.yes_voting_power + res.no_voting_power = res.total_voting_power ∧
      0 ≤ res.total_voting_power ∧ 0 ≤ res.yes_voting_power ∧
      0 ≤ res.no_voting_power := by
  obtain ⟨powers, hcp, -, hnn⟩ := VotingSystem.collect_powers_spec m rs agents hsm hvm
  have hcap := VotingSystem.apply_max_voting_power_cap_nonneg m agents powers hnn hmvp
  refine ⟨_, _, VotingSystem.conduct_vote_eq m agents proposal rv rs powers hcp,
    ?_, ?_, ?_, ?_⟩ <;> dsimp only <;> simp only [roundTally]
  · exact (VotingSystem.tally_total_eq _ _ 0 0 0 (by norm_num)).symm
  · exact (VotingSystem.tally_mono _ hcap _ 0 0 0).1
  · exact (VotingSystem.tally_mono _ hcap _ 0 0 0).2.1
  · exact (VotingSystem.tally_mono _ hcap _ 0 0 0).2.2

/-- C10 (witness): the tally invariant at the concrete mechanism, one agent,
and a bad proposal. -/
theorem C10_witness :
    ∃ res agents2,
      VotingSystem.conduct_vote halfCapMechanism [freshAgent] badProposal
        (fun _ => 0) (fun _ => 0) = some (res, agents2) ∧
      res.yes_voting_power + res.no_voting_power = res.total_voting_power ∧
      0 ≤ res.total_voting_power ∧ 0 ≤ res.yes_voting_power ∧
      0 ≤ res.no_voting_power :=
  C10_tally_invariant halfCapMechanism [freshAgent] badProposal (fun _ => 0) (fun _ => 0)
    (by simp [halfCapMechanism]) (by simp [halfCapMechanism])
    (by norm_num [halfCapMechanism])

/-! ### C9: conduct_vote only mutates amount_slashed of slashed agents -/

/-- C9: for recognized methods and distinct agent ids, `conduct_vote` returns
an agent list of the same length in which, position by position, `agent_id`,
`agent_type`, `stake`, `original_stake` and `honesty_threshold` are
unchanged, and `amount_slashed` differs only for agents whose id appears in
`agents_slashed`; when the outcome is correct, or the slashing method is
`none`, or the rate is 0, the agents are entirely unchanged. -/
theorem C9_frame (m : GovernanceMechanism) (agents : List Agent) (proposal : Proposal)
    (rv rs : ℕ → ℚ)
    (hsm : m.stake_method ∈ ["equal_weight", "token_based", "reputation_based", "hybrid"])
    (hvm : m.voting_method ∈ ["simple_majority", "weighted", "quadratic"])
    (hnd : (agents.map Agent.agent_id).Nodup) :
    ∃ res agents2,
      VotingSystem.conduct_vote m agents proposal rv rs = some (res, agents2) ∧
      agents2.length = agents.length ∧
      List.Forall₂ (fun b a =>
        b.agent_id = a.agent_id ∧ b.agent_type = a.agent_type ∧
        b.stake = a.stake ∧ b.original_stake = a.original_stake ∧
        b.honesty_threshold = a.honesty_threshold ∧
        (b.amount_slashed ≠ a.amount_slashed → a.agent_id ∈ res.agents_slashed))
        agents2 agents ∧
      ((res.correct_outcome = true ∨ m.slashing_method = "none" ∨ m.slashing_rate = 0) →
        agents2 = agents) := by
  obtain ⟨powers, hcp, -, -⟩ := VotingSystem.collect_powers_spec m rs agents hsm hvm
  have hid : roundSlash m agents proposal rv powers = (agents, ([] : List ℕ)) →
      ∃ res agents2,
        VotingSystem.conduct_vote m agents proposal rv rs = some (res, agents2) ∧
        agents2.length = agents.length ∧
        List.Forall₂ (fun b a =>
          b.agent_id = a.agent_id ∧ b.agent_type = a.agent_type ∧
          b.stake = a.stake ∧ b.original_stake = a.original_stake ∧
          b.honesty_threshold = a.honesty_threshold ∧
          (b.amount_slashed ≠ a.amount_slashed → a.agent_id ∈ res.agents_slashed))
          agents2 agents ∧
        ((res.correct_outcome = true ∨ m.slashing_method = "none" ∨
            m.slashing_rate = 0) → agents2 = agents) := by
    intro hrs
    refine ⟨_, _, VotingSystem.conduct_vote_eq m agents proposal rv rs powers hcp,
      ?_, ?_, ?_⟩
    · dsimp only
      rw [hrs]
    · dsimp only
      rw [hrs]
      dsimp only
      exact List.forall₂_same.2
        (fun a _ => ⟨rfl, rfl, rfl, rfl, rfl, fun h => absurd rfl h⟩)
    · intro _
      rw [hrs]
  by_cases hco : (roundPassed m agents proposal rv powers ==
      proposal.is_objectively_good) = true
  · exact hid (by unfold roundSlash; rw [if_pos hco])
  · by_cases hdis : m.slashing_method = "none" ∨ m.slashing_rate = 0
    · refine hid ?_
      unfold roundSlash
      rw [if_neg hco]
      exact VotingSystem.apply_slashing_disabled m agents _ proposal _ hdis
    · have hvotesnd : ((roundVotes agents proposal rv).map Prod.fst).Nodup := by
        rw [roundVotes_fst]
        exact hnd
      have hrs : roundSlash m agents proposal rv powers =
          (agents.map (slashF m proposal.is_objectively_good
            (roundPassed m agents proposal rv powers) (roundVotes agents proposal rv)),
           ((roundVotes agents proposal rv).filter (fun iv =>
              slashCondition proposal.is_objectively_good
                (roundPassed m agents proposal rv powers) iv.2)).map Prod.fst) := by
        unfold roundSlash
        rw [if_neg hco]
        exact VotingSystem.apply_slashing_enabled m agents _ proposal _ hdis hvotesnd
      refine ⟨_, _, VotingSystem.conduct_vote_eq m agents proposal rv rs powers hcp,
        ?_, ?_, ?_⟩
      · dsimp only
        rw [hrs]
        dsimp only
        exact List.length_map agents _
      · dsimp only
        rw [hrs]
        dsimp only
        rw [List.forall₂_map_left_iff]
        refine List.forall₂_same.2 ?_
        intro a _
        obtain ⟨f1, f2, f3, f4, f5⟩ := slashF_frame m proposal.is_objectively_good
          (roundPassed m agents proposal rv powers) (roundVotes agents proposal rv) a
        exact ⟨f1, f2, f3, f4, f5, fun h => slashF_changed_mem m
          proposal.is_objectively_good (roundPassed m agents proposal rv powers)
          (roundVotes agents proposal rv) a h⟩
      · rintro (h | h | h)
        · exact absurd h hco
        · exact absurd (Or.inl h) hdis
        · exact absurd (Or.inr h) hdis

/-- C9 (witness): the frame theorem at the concrete mechanism, one agent,
and a bad proposal. -/
theorem C9_witness :
    ∃ res agents2,
      VotingSystem.conduct_vote halfCapMechanism [freshAgent] badProposal
        (fun _ => 0) (fun _ => 0) = some (res, agents2) ∧
      agents2.length = [freshAgent].length ∧
      List.Forall₂ (fun b a =>
        b.agent_id = a.agent_id ∧ b.agent_type = a.agent_type ∧
        b.stake = a.stake ∧ b.original_stake = a.original_stake ∧
        b.honesty_threshold = a.honesty_threshold ∧
        (b.amount_slashed ≠ a.amount_slashed → a.agent_id ∈ res.agents_slashed))
        agents2 [freshAgent] ∧
      ((res.correct_outcome = true ∨ halfCapMechanism.slashing_method = "none" ∨
          halfCapMechanism.slashing_rate = 0) → agents2 = [freshAgent]) :=
  C9_frame halfCapMechanism [freshAgent] badProposal (fun _ => 0) (fun _ => 0)
    (by simp [halfCapMechanism]) (by simp [halfCapMechanism]) (by simp)
